import Mathlib

/-!
Verification of the deduplicated incremental-sync loop of
`changelog_webhook.py` (repository `GeneralModz/cbots-changelog`).

The Python script polls a changelog API, filters records that are newer
than a persisted cursor (`last_id` / `last_ts` in a JSON state file),
posts the new ones to a Discord webhook, and advances the cursor.

This file is a shallow embedding of the functions
`load_state`, `save_state`, `parse_iso_datetime`, `sort_key` (local to
`run_once`), and `run_once` itself.  Values coming from JSON are modelled
with explicit option types; Python exceptions that the script lets escape
are modelled with `Except`; exceptions that the script catches are folded
into the corresponding `Option`/default results exactly where the
`try/except` blocks sit in the source.

Library behaviour used by the script (`datetime.fromisoformat`,
`datetime.strptime`, `int(...)`, `str.strip`, `datetime` comparison and
`datetime.timestamp`) is modelled explicitly below on the grammar
fragment the script exercises; CPython ≤ 3.10 grammar is followed for
`fromisoformat`.  Note the local-timezone dependence of
`datetime.timestamp()` on naive datetimes is an explicit parameter `off`.
-/

namespace Changelog

/-- A JSON scalar as it can appear in an `id`/`Id` field: an integer or a
string.  (JSON `null` and absent keys are both modelled as `none` of
`Option Val`, which is adequate because the script only ever applies
Python truthiness and `int(...)` to these values, and `None` is falsy.) -/
inductive Val where
  | vInt (n : Int)
  | vStr (s : String)
deriving DecidableEq, Repr

/-- Python truthiness of a `Val`: `0` and `""` are falsy. -/
def truthy : Val → Bool
  | .vInt n => n != 0
  | .vStr s => s != ""

/-- Python truthiness of an optional value (`None` is falsy). -/
def truthyOpt : Option Val → Bool
  | some v => truthy v
  | none => false

/-- Python `a or b` on optional `id` values: returns `a` when `a` is
truthy, otherwise returns `b` unchanged. -/
def pyOr (a b : Option Val) : Option Val :=
  if truthyOpt a then a else b

/-- Python truthiness of an optional string. -/
def truthyS : Option String → Bool
  | some s => s != ""
  | none => false

/-- Python `a or b` on optional strings (used for the
`createdAt`/`CreatedAt` chains). -/
def pyOrS (a b : Option String) : Option String :=
  if truthyS a then a else b

/-- Model of Python `int(v)` restricted to the values that can sit in an
`id` field: an `int` is returned unchanged, a `str` is parsed as an
optional sign followed by digits (surrounding whitespace allowed),
anything else raises, modelled as `none`. -/
def intDigits : List Char → Option Nat
  | [] => none
  | cs => cs.foldl (fun acc c => match acc with
      | none => none
      | some n => if c.isDigit then some (n * 10 + (c.toNat - 48)) else none)
      (some 0)

/-- ASCII/py whitespace for `str.strip` / `int` models. -/
def isPySpace (c : Char) : Bool :=
  c = ' ' || c = '\t' || c = '\n' || c = '\r' || c.toNat = 11 || c.toNat = 12

/-- Model of Python `str.strip()`. -/
def pyStrip (cs : List Char) : List Char :=
  ((cs.dropWhile isPySpace).reverse.dropWhile isPySpace).reverse

/-- Model of Python `int(...)` applied to a `Val`. -/
def toInt : Val → Option Int
  | .vInt n => some n
  | .vStr s =>
    match pyStrip s.data with
    | '+' :: cs => (intDigits cs).map Int.ofNat
    | '-' :: cs => (intDigits cs).map (fun n => -(n : Int))
    | cs => (intDigits cs).map Int.ofNat

/-- A fetched changelog record, with the four fields the sync core
reads.  Field presence varies across API shapes, hence every field is
optional; `id`/`Id` and `createdAt`/`CreatedAt` are the two accepted
spellings probed by the script. -/
structure Rec where
  id : Option Val
  Id : Option Val
  createdAt : Option String
  CreatedAt : Option String
deriving DecidableEq, Repr

/-- `e.get("createdAt") or e.get("CreatedAt") or ""` from the script. -/
def createdChain (e : Rec) : String :=
  (pyOrS e.createdAt e.CreatedAt).getD ""

/-- The persisted cursor: the JSON state dict with its two optional
keys `last_id` and `last_ts`.  (The script only ever writes these two
keys, and `last_id` is always written as `int(...)`.) -/
structure StateDict where
  last_id : Option Int
  last_ts : Option String
deriving DecidableEq, Repr

/-- The empty state dict `{}`. -/
def emptyState : StateDict := ⟨none, none⟩

/-- Python `not state` on the state dict: true iff no key is present. -/
def stateEmpty (s : StateDict) : Bool :=
  s.last_id.isNone && s.last_ts.isNone

/-! ### The `datetime` model -/

/-- A Python `datetime` value: civil fields plus an optional
UTC offset in seconds (`none` = naive datetime). -/
structure PyDateTime where
  year : Nat
  month : Nat
  day : Nat
  hour : Nat
  minute : Nat
  second : Nat
  micro : Nat
  tzOff : Option Int
deriving DecidableEq, Repr

/-- Gregorian leap year. -/
def isLeap (y : Nat) : Bool :=
  (y % 4 = 0 && y % 100 != 0) || y % 400 = 0

/-- Days in a month (proleptic Gregorian, as `datetime` validates). -/
def daysInMonth (y m : Nat) : Nat :=
  if m = 2 then (if isLeap y then 29 else 28)
  else if m = 4 || m = 6 || m = 9 || m = 11 then 30
  else 31

/-- Days strictly before month `m` in year `y`. -/
def daysBeforeMonth (y m : Nat) : Nat :=
  (if m ≥ 2 then 31 else 0) + (if m ≥ 3 then (if isLeap y then 29 else 28) else 0) +
  (if m ≥ 4 then 31 else 0) + (if m ≥ 5 then 30 else 0) + (if m ≥ 6 then 31 else 0) +
  (if m ≥ 7 then 30 else 0) + (if m ≥ 8 then 31 else 0) + (if m ≥ 9 then 31 else 0) +
  (if m ≥ 10 then 30 else 0) + (if m ≥ 11 then 31 else 0) + (if m ≥ 12 then 30 else 0)

/-- Proleptic-Gregorian day ordinal (0 for 0001-01-01), as used by
`datetime.toordinal`. -/
def toOrdinal (y m d : Nat) : Nat :=
  365 * (y - 1) + (y - 1) / 4 - (y - 1) / 100 + (y - 1) / 400 +
    daysBeforeMonth y m + (d - 1)

/-- The ordinal of the Unix epoch 1970-01-01. -/
def epochOrdinal : Nat := toOrdinal 1970 1 1

/-- Microseconds since the epoch reading the civil fields at face value
(i.e. ignoring any timezone). -/
def naiveEpochMicro (t : PyDateTime) : Int :=
  ((toOrdinal t.year t.month t.day : Int) - (epochOrdinal : Int)) * 86400000000 +
    ((t.hour * 3600 + t.minute * 60 + t.second : Nat) : Int) * 1000000 + (t.micro : Int)

/-- Valid calendar date as enforced by the `datetime` constructor. -/
def validDate (y m d : Nat) : Bool :=
  1 ≤ y && y ≤ 9999 && 1 ≤ m && m ≤ 12 && 1 ≤ d && d ≤ daysInMonth y m

/-- Valid time-of-day fields as enforced by the `datetime` constructor. -/
def validTime (h mi s : Nat) : Bool :=
  h ≤ 23 && mi ≤ 59 && s ≤ 59

/-- Error raised out of `run_once` (uncaught by it): Python refuses to
order a naive and an aware `datetime`. -/
inductive PyErr where
  | naiveAwareCompare
deriving DecidableEq, Repr

/-- Python comparison `a > b` on datetimes: aware datetimes compare by
instant, naive ones field-wise; mixing the two raises `TypeError`. -/
def pyGtDT (a b : PyDateTime) : Except PyErr Bool :=
  match a.tzOff, b.tzOff with
  | some x, some y =>
    .ok (decide (naiveEpochMicro a - x * 1000000 > naiveEpochMicro b - y * 1000000))
  | none, none => .ok (decide (naiveEpochMicro a > naiveEpochMicro b))
  | _, _ => .error .naiveAwareCompare

/-- Python `datetime.timestamp()` in microseconds.  A naive datetime is
interpreted in the local timezone, modelled by the offset parameter
`off` (seconds east of UTC). -/
def timestampMicro (off : Int) (t : PyDateTime) : Int :=
  naiveEpochMicro t - (t.tzOff.getD off) * 1000000

/-! ### Timestamp parsing (`parse_iso_datetime`) -/

/-- Consume exactly `n` digits, returning their value and the rest. -/
def takeDigitsAux : Nat → Nat → List Char → Option (Nat × List Char)
  | 0, acc, cs => some (acc, cs)
  | n + 1, acc, c :: cs =>
    if c.isDigit then takeDigitsAux n (acc * 10 + (c.toNat - 48)) cs else none
  | _ + 1, _, [] => none

/-- Consume exactly `n` digits. -/
def takeDigits (n : Nat) (cs : List Char) : Option (Nat × List Char) :=
  takeDigitsAux n 0 cs

/-- Greedily consume up to `n` digits, returning how many were read,
their value, and the rest. -/
def takeDigitsUpToAux : Nat → Nat → Nat → List Char → (Nat × Nat × List Char)
  | 0, cnt, acc, cs => (cnt, acc, cs)
  | n + 1, cnt, acc, c :: cs =>
    if c.isDigit then takeDigitsUpToAux n (cnt + 1) (acc * 10 + (c.toNat - 48)) cs
    else (cnt, acc, c :: cs)
  | _ + 1, cnt, acc, [] => (cnt, acc, [])

/-- Greedily consume up to `n` digits. -/
def takeDigitsUpTo (n : Nat) (cs : List Char) : Nat × Nat × List Char :=
  takeDigitsUpToAux n 0 0 cs

/-- Consume one expected character. -/
def expectChar (c : Char) : List Char → Option (List Char)
  | d :: cs => if d = c then some cs else none
  | [] => none

/-- Offset suffix `±HH:MM` as accepted by `fromisoformat`
(CPython ≤ 3.10 requires the colon). -/
def parseOffsetColon : List Char → Option (Int × List Char)
  | s :: cs =>
    if s = '+' || s = '-' then
      match takeDigits 2 cs with
      | some (oh, r1) =>
        match expectChar ':' r1 with
        | some r2 =>
          match takeDigits 2 r2 with
          | some (om, r3) =>
            if oh ≤ 23 && om ≤ 59 then
              some ((if s = '-' then -1 else 1) * ((oh : Int) * 3600 + om * 60), r3)
            else none
          | none => none
        | none => none
      | none => none
    else none
  | [] => none

/-- Fractional seconds `.fff` or `.ffffff` as accepted by
`fromisoformat` (CPython ≤ 3.10: exactly 3 or 6 digits). -/
def parseFracIso (cs : List Char) : Option (Nat × List Char) :=
  match cs with
  | '.' :: r =>
    match takeDigitsUpTo 6 r with
    | (3, v, rest) => some (v * 1000, rest)
    | (6, v, rest) => some (v, rest)
    | _ => none
  | _ => none

/-- Time part `HH[:MM[:SS[.frac]]][±HH:MM]` of `fromisoformat`,
given already-parsed date fields. -/
def parseIsoTime (y mo d : Nat) (cs : List Char) : Option PyDateTime :=
  match takeDigits 2 cs with
  | none => none
  | some (h, r1) =>
    let next : Nat → Nat → Nat → List Char → Option PyDateTime := fun mi s mic r =>
      if validTime h mi s && mic < 1000000 then
        match r with
        | [] => some ⟨y, mo, d, h, mi, s, mic, none⟩
        | _ =>
          match parseOffsetColon r with
          | some (off, []) => some ⟨y, mo, d, h, mi, s, mic, some off⟩
          | _ => none
      else none
    match r1 with
    | ':' :: r2 =>
      match takeDigits 2 r2 with
      | none => none
      | some (mi, r3) =>
        match r3 with
        | ':' :: r4 =>
          match takeDigits 2 r4 with
          | none => none
          | some (s, r5) =>
            match parseFracIso r5 with
            | some (mic, r6) => next mi s mic r6
            | none => next mi s 0 r5
        | _ => next mi 0 0 r3
    | _ => next 0 0 0 r1

/-- Model of CPython ≤ 3.10 `datetime.fromisoformat`: a date
`YYYY-MM-DD`, optionally followed by a single separator character and
a time `HH[:MM[:SS[.fff[fff]]]][±HH:MM]`. -/
def fromisoformat (cs : List Char) : Option PyDateTime :=
  match takeDigits 4 cs with
  | none => none
  | some (y, r1) =>
    match expectChar '-' r1 with
    | none => none
    | some r2 =>
      match takeDigits 2 r2 with
      | none => none
      | some (mo, r3) =>
        match expectChar '-' r3 with
        | none => none
        | some r4 =>
          match takeDigits 2 r4 with
          | none => none
          | some (d, r5) =>
            if validDate y mo d then
              match r5 with
              | [] => some ⟨y, mo, d, 0, 0, 0, 0, none⟩
              | _sep :: r6 => parseIsoTime y mo d r6
            else none

/-- `%z` directive of `strptime`: `Z`, `±HHMM` or `±HH:MM`. -/
def parseZDirective : List Char → Option (Int × List Char)
  | 'Z' :: cs => some (0, cs)
  | s :: cs =>
    if s = '+' || s = '-' then
      match takeDigits 2 cs with
      | some (oh, r1) =>
        let rest := match r1 with
          | ':' :: r2 => takeDigits 2 r2
          | _ => takeDigits 2 r1
        match rest with
        | some (om, r3) =>
          if oh ≤ 23 && om ≤ 59 then
            some ((if s = '-' then -1 else 1) * ((oh : Int) * 3600 + om * 60), r3)
          else none
        | none => none
      | none => none
    else none
  | [] => none

/-- Shared date-time core of the three `strptime` fallback formats
`%Y-%m-%dT%H:%M:%S`: flexible-width numeric directives, as `_strptime`
matches 1–4 digits for `%Y` and 1–2 for the others. -/
def parseStrpCore (cs : List Char) : Option (PyDateTime × List Char) :=
  match takeDigitsUpTo 4 cs with
  | (0, _, _) => none
  | (_, y, r1) =>
    match expectChar '-' r1 with
    | none => none
    | some r2 =>
      match takeDigitsUpTo 2 r2 with
      | (0, _, _) => none
      | (_, mo, r3) =>
        match expectChar '-' r3 with
        | none => none
        | some r4 =>
          match takeDigitsUpTo 2 r4 with
          | (0, _, _) => none
          | (_, d, r5) =>
            match expectChar 'T' r5 with
            | none => none
            | some r6 =>
              match takeDigitsUpTo 2 r6 with
              | (0, _, _) => none
              | (_, h, r7) =>
                match expectChar ':' r7 with
                | none => none
                | some r8 =>
                  match takeDigitsUpTo 2 r8 with
                  | (0, _, _) => none
                  | (_, mi, r9) =>
                    match expectChar ':' r9 with
                    | none => none
                    | some r10 =>
                      match takeDigitsUpTo 2 r10 with
                      | (0, _, _) => none
                      | (_, s, r11) =>
                        if validDate y mo d && validTime h mi s then
                          some (⟨y, mo, d, h, mi, s, 0, none⟩, r11)
                        else none

/-- `strptime` with format `"%Y-%m-%dT%H:%M:%S.%f%z"`. -/
def strpFracZone (cs : List Char) : Option PyDateTime :=
  match parseStrpCore cs with
  | none => none
  | some (t, r) =>
    match r with
    | '.' :: r1 =>
      match takeDigitsUpTo 6 r1 with
      | (0, _, _) => none
      | (cnt, f, r2) =>
        match parseZDirective r2 with
        | some (off, []) => some { t with micro := f * 10 ^ (6 - cnt), tzOff := some off }
        | _ => none
    | _ => none

/-- `strptime` with format `"%Y-%m-%dT%H:%M:%S%z"`. -/
def strpZone (cs : List Char) : Option PyDateTime :=
  match parseStrpCore cs with
  | none => none
  | some (t, r) =>
    match parseZDirective r with
    | some (off, []) => some { t with tzOff := some off }
    | _ => none

/-- `strptime` with format `"%Y-%m-%dT%H:%M:%S"` (naive, nothing after
the seconds). -/
def strpNaive (cs : List Char) : Option PyDateTime :=
  match parseStrpCore cs with
  | some (t, []) => some t
  | _ => none

/-- The script's `parse_iso_datetime`: falsy input gives `None`; the
input is stripped; a trailing `Z` is rewritten to `+00:00`; then
`fromisoformat` is tried, then the three explicit `strptime` formats;
every failure is caught, yielding `None`. -/
def parse_iso_datetime (s : String) : Option PyDateTime :=
  if s = "" then none
  else
    let cs := pyStrip s.data
    let cs := if cs.getLast? = some 'Z' then cs.dropLast ++ ['+', '0', '0', ':', '0', '0'] else cs
    match fromisoformat cs with
    | some t => some t
    | none =>
      match strpFracZone cs with
      | some t => some t
      | none =>
        match strpZone cs with
        | some t => some t
        | none => strpNaive cs

/-! ### Cursor persistence (`load_state` / `save_state`) -/

/-- The cursor file on disk: missing, present but corrupt/unreadable, or
a valid JSON state document. -/
inductive Disk where
  | missing
  | corrupt
  | valid (st : StateDict)
deriving DecidableEq, Repr

/-- `load_state`: a missing file yields `{}`; a corrupt or unreadable
file is caught by the `try/except` and also yields `{}`. -/
def load_state : Disk → StateDict
  | .missing => emptyState
  | .corrupt => emptyState
  | .valid st => st

/-- `save_state`: writing the state dict; any exception is caught (and
logged), leaving the file as it was.  `ok` is the outcome of the write
attempt. -/
def save_state (ok : Bool) (d : Disk) (st : StateDict) : Disk :=
  if ok then .valid st else d

/-! ### The novelty filter and sort key of `run_once` -/

/-- The integer id the script manages to extract from a record:
`eid = e.get("id") or e.get("Id")`, then only a truthy `eid` whose
`int(eid)` succeeds produces a value. -/
def recIdVal (e : Rec) : Option Int :=
  match pyOr e.id e.Id with
  | some v => if truthy v then toInt v else none
  | none => none

/-- The synthetic sort key (`sort_key` nested in `run_once`): the
integer id when available, else the parsed `createdAt` timestamp's
epoch (`created.timestamp()`), else `0`.  `off` is the local-timezone
offset used by `timestamp()` on naive datetimes. -/
def sort_key (off : Int) (e : Rec) : ℚ :=
  match recIdVal e with
  | some n => (n : ℚ)
  | none =>
    match parse_iso_datetime (createdChain e) with
    | some c => Rat.divInt (timestampMicro off c) 1000000
    | none => 0

/-- Boolean ordering on records by `sort_key`, the comparison
`sorted(logs, key=sort_key)` sorts by. -/
def keyLe (off : Int) (a b : Rec) : Bool :=
  decide (sort_key off a ≤ sort_key off b)

/-- `logs_sorted = sorted(logs, key=sort_key)`: a stable ascending sort
by the synthetic key. -/
def sortLogs (off : Int) (l : List Rec) : List Rec :=
  l.mergeSort (keyLe off)

/-- The per-record novelty test from the filtering loop of `run_once`
(lines 239–255): a record with a truthy id is new iff `int(eid)`
succeeds and exceeds `last_id` (an unparseable truthy id is skipped
with no timestamp fallback); otherwise the record is new iff its
`createdAt` chain parses and `last_ts` is unset, falsy, or unparseable,
or the parsed timestamp is strictly greater.  Comparing a naive with an
aware timestamp raises out of the pass. -/
def is_new (lid : Int) (lts : Option String) (e : Rec) : Except PyErr Bool :=
  if truthyOpt (pyOr e.id e.Id) then
    match recIdVal e with
    | some n => .ok (decide (n > lid))
    | none => .ok false
  else
    match parse_iso_datetime (createdChain e) with
    | none => .ok false
    | some created =>
      match lts with
      | none => .ok true
      | some ts =>
        if ts = "" then .ok true
        else
          match parse_iso_datetime ts with
          | none => .ok true
          | some lastDt => pyGtDT created lastDt

/-- The filtering loop itself: keeps, in order, the records `is_new`
accepts; a comparison error aborts the loop (and the pass). -/
def selectNew (lid : Int) (lts : Option String) : List Rec → Except PyErr (List Rec)
  | [] => .ok []
  | e :: rest =>
    match is_new lid lts e with
    | .error err => .error err
    | .ok b =>
      match selectNew lid lts rest with
      | .error err => .error err
      | .ok tl => .ok (if b then e :: tl else tl)

/-! ### The publish / cursor-advance loop and bootstrap of `run_once` -/

/-- The per-record state update (lines 292–301): a truthy id whose
`int` succeeds overwrites `last_id`; a truthy `createdAt`/`CreatedAt`
chain overwrites `last_ts`; this happens for every iteration of the
publish loop, whether or not the publish attempt succeeded. -/
def stepState (st : StateDict) (e : Rec) : StateDict :=
  let st1 :=
    match recIdVal e with
    | some n => { st with last_id := some n }
    | none => st
  let c := pyOrS e.createdAt e.CreatedAt
  if truthyS c then { st1 with last_ts := c } else st1

/-- The publish loop over `new_logs`: each record's `send_to_discord`
is attempted (outcome `pubOk i` for the `i`-th record; failures are
caught and logged), then the state is updated and saved.  Returns the
successfully published records, the sequence of states handed to
`save_state`, and the final in-memory state. -/
def publishLoop (pubOk : Nat → Bool) : Nat → StateDict → List Rec →
    (List Rec × List StateDict × StateDict)
  | _, st, [] => ([], [], st)
  | i, st, e :: rest =>
    let st1 := stepState st e
    let out := publishLoop pubOk (i + 1) st1 rest
    ((if pubOk i then e :: out.1 else out.1), st1 :: out.2.1, out.2.2)

/-- First-run bootstrap `max_id` (lines 264–272): the maximum over
`logs_sorted` of the parseable truthy integer ids, floored at the
loaded `last_id`. -/
def bootMaxId (lid : Int) (l : List Rec) : Int :=
  l.foldl (fun m e => match recIdVal e with
    | some n => max m n
    | none => m) lid

/-- First-run bootstrap timestamp candidate (lines 274–277): the
`createdAt`/`CreatedAt` of the last record in sort order, when truthy. -/
def lastTsCandidate (l : List Rec) : Option String :=
  match l.getLast? with
  | some e =>
    let c := pyOrS e.createdAt e.CreatedAt
    if truthyS c then c else none
  | none => none

/-- Outcome of one `run_once` call: the records whose publish was
attempted, the records actually delivered, the successive states handed
to `save_state`, and the final in-memory state. -/
structure RunResult where
  attempts : List Rec
  published : List Rec
  writes : List StateDict
  final : StateDict
deriving DecidableEq, Repr

/-- `run_once`, over an already-fetched batch `logs` (the script's
extraction of the `data` array from the HTTP response is upstream of
this).  `ph` is `POST_HISTORY_ON_FIRST_RUN`, `off` the local timezone
offset, `pubOk i` the outcome of the `i`-th webhook delivery, `state`
the loaded cursor.  Mirrors lines 207–305: empty batch → nothing;
filter; empty `new_logs` → nothing; empty state with bootstrap posting
disabled → initialise cursor, publish nothing; otherwise the publish
loop. -/
def run_once (ph : Bool) (off : Int) (pubOk : Nat → Bool)
    (state : StateDict) (logs : List Rec) : Except PyErr RunResult :=
  let last_id := state.last_id.getD 0
  let last_ts := state.last_ts
  if logs.isEmpty then .ok ⟨[], [], [], state⟩
  else
    let logs_sorted := sortLogs off logs
    match selectNew last_id last_ts logs_sorted with
    | .error err => .error err
    | .ok new_logs =>
      if new_logs.isEmpty then .ok ⟨[], [], [], state⟩
      else if stateEmpty state && !ph then
        let st1 : StateDict :=
          ⟨some (bootMaxId last_id logs_sorted),
            match lastTsCandidate logs_sorted with
            | some t => some t
            | none => state.last_ts⟩
        .ok ⟨[], [], [st1], st1⟩
      else
        let out := publishLoop pubOk 0 state new_logs
        .ok ⟨new_logs, out.1, out.2.1, out.2.2⟩

/-! ### Whole passes and pass sequences -/

/-- Apply the sequence of `save_state` calls a pass requests to the
disk, with per-call outcomes `saveOk`. -/
def applySaves (saveOk : Nat → Bool) : Nat → Disk → List StateDict → Disk
  | _, d, [] => d
  | i, d, w :: ws => applySaves saveOk (i + 1) (save_state (saveOk i) d w) ws

/-- One full pass: load the cursor from disk, run `run_once`, persist
its writes. -/
def runPass (ph : Bool) (off : Int) (pubOk saveOk : Nat → Bool)
    (d : Disk) (logs : List Rec) : Except PyErr (RunResult × Disk) :=
  match run_once ph off pubOk (load_state d) logs with
  | .error err => .error err
  | .ok r => .ok (r, applySaves saveOk 0 d r.writes)

/-- The disk after one pass; an error escaping `run_once` is caught by
`main_loop`, leaving the disk unchanged. -/
def passDisk (ph : Bool) (off : Int) (pubOk saveOk : Nat → Bool)
    (d : Disk) (logs : List Rec) : Disk :=
  match runPass ph off pubOk saveOk d logs with
  | .error _ => d
  | .ok (_, d') => d'

/-- The successive on-disk cursors over a sequence of passes; each pass
brings its fetched batch and its publish/save outcome functions. -/
def diskTrace (ph : Bool) (off : Int) :
    Disk → List (List Rec × (Nat → Bool) × (Nat → Bool)) → List Disk
  | d, [] => [d]
  | d, (logs, pk, sk) :: rest =>
    d :: diskTrace ph off (passDisk ph off pk sk d logs) rest

/-- The `last_id` component a pass would load from a disk state
(`int(state.get("last_id", 0))`). -/
def lastIdOf (d : Disk) : Int :=
  (load_state d).last_id.getD 0

/-- The `last_id` a state dict carries, defaulted like the loader does. -/
def lastIdVal (st : StateDict) : Int :=
  st.last_id.getD 0

deriving instance DecidableEq for Except

/-- The novelty rule of claim C1 stated literally, for comparison with
the implementation: a record with a numeric id is new iff the id
exceeds `lastId`; otherwise a record with a parseable timestamp is new
iff `lastTimestamp` is unset (including unreadable) or the timestamp is
strictly greater; records with neither field are never new. -/
def claimC1Rule (lid : Int) (lts : Option String) (e : Rec) : Bool :=
  match recIdVal e with
  | some n => decide (n > lid)
  | none =>
    match parse_iso_datetime (createdChain e) with
    | some c =>
      match lts with
      | none => true
      | some t =>
        match parse_iso_datetime t with
        | some lastDt => decide (pyGtDT c lastDt = .ok true)
        | none => true
    | none => false

/-- The novelty rule as amended for claim C1: a record whose id chain is
truthy is selected iff the id converts to an integer exceeding
`cursor.lastId` (a truthy id that `int(...)` rejects is never selected,
with no timestamp fallback); a record without a truthy id is selected
iff its `createdAt` chain parses and `cursor.lastTimestamp` is unset,
empty, or unparseable, or the parsed timestamp compares strictly
greater; records with neither identifying field are never selected. -/
def amendedC1Rule (lid : Int) (lts : Option String) (e : Rec) : Prop :=
  if truthyOpt (pyOr e.id e.Id) then
    ∃ n, recIdVal e = some n ∧ n > lid
  else
    ∃ c, parse_iso_datetime (createdChain e) = some c ∧
      (lts = none ∨ lts = some "" ∨
        (∃ t, lts = some t ∧ parse_iso_datetime t = none) ∨
        (∃ t lastDt, lts = some t ∧ parse_iso_datetime t = some lastDt ∧
          pyGtDT c lastDt = .ok true))

/-! ### Infrastructure lemmas -/

theorem keyLe_trans (off : Int) (a b c : Rec) (hab : keyLe off a b) (hbc : keyLe off b c) :
    keyLe off a c := by
  simp only [keyLe, decide_eq_true_eq] at *
  exact le_trans hab hbc

theorem keyLe_total (off : Int) (a b : Rec) : keyLe off a b || keyLe off b a := by
  simp only [keyLe]
  rcases le_total (sort_key off a) (sort_key off b) with h | h <;> simp [h]

theorem sortLogs_pairwise (off : Int) (l : List Rec) :
    (sortLogs off l).Pairwise (fun a b => sort_key off a ≤ sort_key off b) := by
  have h := @List.sorted_mergeSort Rec (keyLe off)
    (fun a b c hab hbc => keyLe_trans off a b c hab hbc)
    (fun a b => keyLe_total off a b) l
  exact h.imp (fun hab => by simpa [keyLe] using hab)

theorem sortLogs_perm (off : Int) (l : List Rec) : (sortLogs off l).Perm l :=
  List.mergeSort_perm l _

theorem selectNew_sublist {lid : Int} {lts : Option String} :
    ∀ {l nl : List Rec}, selectNew lid lts l = .ok nl → nl.Sublist l := by
  intro l
  induction l with
  | nil =>
    intro nl h
    simp only [selectNew, Except.ok.injEq] at h
    simp [← h]
  | cons e rest ih =>
    intro nl h
    simp only [selectNew] at h
    cases h1 : is_new lid lts e with
    | error err => rw [h1] at h; exact absurd h (by simp)
    | ok b =>
      rw [h1] at h
      cases h2 : selectNew lid lts rest with
      | error err => rw [h2] at h; exact absurd h (by simp)
      | ok tl =>
        rw [h2] at h
        simp only [Except.ok.injEq] at h
        subst h
        cases b with
        | true => simpa using (ih h2).cons₂ e
        | false => simpa using (ih h2).cons e

theorem selectNew_mem_iff {lid : Int} {lts : Option String} :
    ∀ {l nl : List Rec}, selectNew lid lts l = .ok nl →
      ∀ e : Rec, e ∈ nl ↔ e ∈ l ∧ is_new lid lts e = .ok true := by
  intro l
  induction l with
  | nil =>
    intro nl h e
    simp only [selectNew, Except.ok.injEq] at h
    simp [← h]
  | cons a rest ih =>
    intro nl h e
    simp only [selectNew] at h
    cases h1 : is_new lid lts a with
    | error err => rw [h1] at h; exact absurd h (by simp)
    | ok b =>
      rw [h1] at h
      cases h2 : selectNew lid lts rest with
      | error err => rw [h2] at h; exact absurd h (by simp)
      | ok tl =>
        rw [h2] at h
        simp only [Except.ok.injEq] at h
        subst h
        have htl := ih h2 e
        cases b with
        | true =>
          rw [if_pos rfl]
          simp only [List.mem_cons]
          constructor
          · rintro (rfl | he)
            · exact ⟨Or.inl rfl, h1⟩
            · rcases htl.1 he with ⟨h3, h4⟩
              exact ⟨Or.inr h3, h4⟩
          · rintro ⟨rfl | he, hn⟩
            · exact Or.inl rfl
            · exact Or.inr (htl.2 ⟨he, hn⟩)
        | false =>
          rw [if_neg (by simp : ¬(false = true))]
          simp only [List.mem_cons]
          constructor
          · intro he
            rcases htl.1 he with ⟨h3, h4⟩
            exact ⟨Or.inr h3, h4⟩
          · rintro ⟨rfl | he, hn⟩
            · rw [h1] at hn
              exact absurd hn (by simp)
            · exact htl.2 ⟨he, hn⟩

theorem selectNew_eq_nil {lid : Int} {lts : Option String} :
    ∀ {l : List Rec}, (∀ e ∈ l, is_new lid lts e = .ok false) →
      selectNew lid lts l = .ok [] := by
  intro l
  induction l with
  | nil => intro _; rfl
  | cons a rest ih =>
    intro h
    have ha := h a (List.mem_cons_self _ _)
    have hr := ih (fun e he => h e (List.mem_cons_of_mem _ he))
    simp [selectNew, ha, hr]

theorem recIdVal_truthy {e : Rec} {n : Int} (h : recIdVal e = some n) :
    truthyOpt (pyOr e.id e.Id) = true := by
  unfold recIdVal at h
  cases hv : pyOr e.id e.Id with
  | none => rw [hv] at h; exact absurd h (by simp)
  | some v =>
    rw [hv] at h
    by_cases ht : truthy v
    · simp [truthyOpt, ht]
    · simp [ht] at h

theorem is_new_of_recIdVal {e : Rec} {n : Int} (lid : Int) (lts : Option String)
    (h : recIdVal e = some n) : is_new lid lts e = .ok (decide (n > lid)) := by
  unfold is_new
  rw [if_pos (recIdVal_truthy h), h]

theorem sort_key_of_recIdVal {e : Rec} {n : Int} (off : Int) (h : recIdVal e = some n) :
    sort_key off e = (n : ℚ) := by
  unfold sort_key
  rw [h]

theorem stepState_last_id (st : StateDict) (e : Rec) :
    (stepState st e).last_id = match recIdVal e with
      | some n => some n
      | none => st.last_id := by
  unfold stepState
  cases recIdVal e <;> by_cases h : truthyS (pyOrS e.createdAt e.CreatedAt) <;> simp [h]

theorem lastIdVal_stepState (st : StateDict) (e : Rec) :
    lastIdVal (stepState st e) = match recIdVal e with
      | some n => n
      | none => lastIdVal st := by
  unfold lastIdVal
  rw [stepState_last_id]
  cases recIdVal e <;> simp

theorem publishLoop_writes_len (pubOk : Nat → Bool) :
    ∀ (l : List Rec) (st : StateDict) (i : Nat),
      (publishLoop pubOk i st l).2.1.length = l.length := by
  intro l
  induction l with
  | nil => intro st i; rfl
  | cons e rest ih =>
    intro st i
    simp [publishLoop, ih]

theorem publishLoop_final_getLast (pubOk : Nat → Bool) :
    ∀ (l : List Rec) (st : StateDict) (i : Nat),
      (publishLoop pubOk i st l).2.2 =
        ((publishLoop pubOk i st l).2.1).getLast?.getD st := by
  intro l
  induction l with
  | nil => intro st i; rfl
  | cons e rest ih =>
    intro st i
    simp only [publishLoop]
    rw [ih (stepState st e) (i + 1)]
    cases h : (publishLoop pubOk (i + 1) (stepState st e) rest).2.1 with
    | nil => simp
    | cons w ws =>
      cases hg : (w :: ws).getLast? with
      | some x => simp [hg]
      | none => simp [List.getLast?_eq_none_iff] at hg

theorem publishLoop_chain (off : Int) (pubOk : Nat → Bool) :
    ∀ (l : List Rec) (st : StateDict) (i : Nat),
      l.Pairwise (fun a b => sort_key off a ≤ sort_key off b) →
      (∀ e ∈ l, ∀ n : Int, recIdVal e = some n → lastIdVal st ≤ n) →
      List.Chain' (· ≤ ·)
        (lastIdVal st :: ((publishLoop pubOk i st l).2.1).map lastIdVal) := by
  intro l
  induction l with
  | nil => intro st i _ _; simp [publishLoop]
  | cons e rest ih =>
    intro st i hpw hge
    rcases List.pairwise_cons.mp hpw with ⟨hhead, htail⟩
    have hstep : lastIdVal st ≤ lastIdVal (stepState st e) := by
      rw [lastIdVal_stepState]
      cases h : recIdVal e with
      | some n => exact hge e (List.mem_cons_self _ _) n h
      | none => exact le_refl _
    have hge' : ∀ e' ∈ rest, ∀ m : Int, recIdVal e' = some m →
        lastIdVal (stepState st e) ≤ m := by
      intro e' he' m hm
      rw [lastIdVal_stepState]
      cases h : recIdVal e with
      | some n =>
        have hk : sort_key off e ≤ sort_key off e' := hhead e' he'
        rw [sort_key_of_recIdVal off h, sort_key_of_recIdVal off hm] at hk
        exact_mod_cast hk
      | none => exact hge e' (List.mem_cons_of_mem _ he') m hm
    have hrec := ih (stepState st e) (i + 1) htail hge'
    simp only [publishLoop, List.map_cons]
    exact List.chain'_cons.mpr ⟨hstep, hrec⟩

theorem publishLoop_final_ge (off : Int) (pubOk : Nat → Bool) :
    ∀ (l : List Rec) (st : StateDict) (i : Nat),
      l.Pairwise (fun a b => sort_key off a ≤ sort_key off b) →
      (∀ e ∈ l, ∀ n : Int, recIdVal e = some n → lastIdVal st ≤ n) →
      lastIdVal st ≤ lastIdVal (publishLoop pubOk i st l).2.2 := by
  intro l
  induction l with
  | nil => intro st i _ _; exact le_refl _
  | cons e rest ih =>
    intro st i hpw hge
    rcases List.pairwise_cons.mp hpw with ⟨hhead, htail⟩
    have hstep : lastIdVal st ≤ lastIdVal (stepState st e) := by
      rw [lastIdVal_stepState]
      cases h : recIdVal e with
      | some n => exact hge e (List.mem_cons_self _ _) n h
      | none => exact le_refl _
    have hge' : ∀ e' ∈ rest, ∀ m : Int, recIdVal e' = some m →
        lastIdVal (stepState st e) ≤ m := by
      intro e' he' m hm
      rw [lastIdVal_stepState]
      cases h : recIdVal e with
      | some n =>
        have hk : sort_key off e ≤ sort_key off e' := hhead e' he'
        rw [sort_key_of_recIdVal off h, sort_key_of_recIdVal off hm] at hk
        exact_mod_cast hk
      | none => exact hge e' (List.mem_cons_of_mem _ he') m hm
    exact le_trans hstep (ih (stepState st e) (i + 1) htail hge')

theorem publishLoop_final_ge_mem (off : Int) (pubOk : Nat → Bool) :
    ∀ (l : List Rec) (st : StateDict) (i : Nat) (e : Rec) (n : Int),
      l.Pairwise (fun a b => sort_key off a ≤ sort_key off b) →
      e ∈ l → recIdVal e = some n →
      (∀ e' ∈ l, ∀ m : Int, recIdVal e' = some m → lastIdVal st ≤ m) →
      n ≤ lastIdVal (publishLoop pubOk i st l).2.2 := by
  intro l
  induction l with
  | nil => intro st i e n _ he; exact absurd he (by simp)
  | cons a rest ih =>
    intro st i e n hpw he hn hge
    rcases List.pairwise_cons.mp hpw with ⟨hhead, htail⟩
    have hge' : ∀ e' ∈ rest, ∀ m : Int, recIdVal e' = some m →
        lastIdVal (stepState st a) ≤ m := by
      intro e' he' m hm
      rw [lastIdVal_stepState]
      cases h : recIdVal a with
      | some k =>
        have hk : sort_key off a ≤ sort_key off e' := hhead e' he'
        rw [sort_key_of_recIdVal off h, sort_key_of_recIdVal off hm] at hk
        exact_mod_cast hk
      | none => exact hge e' (List.mem_cons_of_mem _ he') m hm
    rcases List.mem_cons.mp he with rfl | he'
    · have hv : lastIdVal (stepState st e) = n := by
        rw [lastIdVal_stepState, hn]
      have := publishLoop_final_ge off pubOk rest (stepState st e) (i + 1) htail hge'
      rw [hv] at this
      simpa [publishLoop] using this
    · have := ih (stepState st a) (i + 1) e n htail he' hn hge'
      simpa [publishLoop] using this

theorem bootMaxId_ge : ∀ (l : List Rec) (lid : Int), lid ≤ bootMaxId lid l := by
  intro l
  induction l with
  | nil => intro lid; exact le_refl _
  | cons e rest ih =>
    intro lid
    show lid ≤ bootMaxId lid (e :: rest)
    unfold bootMaxId
    simp only [List.foldl_cons]
    cases h : recIdVal e with
    | some n => exact le_trans (le_max_left lid n) (ih (max lid n))
    | none => exact ih lid

theorem bootMaxId_ge_mem : ∀ (l : List Rec) (lid : Int) (e : Rec) (n : Int),
    e ∈ l → recIdVal e = some n → n ≤ bootMaxId lid l := by
  intro l
  induction l with
  | nil => intro lid e n he; exact absurd he (by simp)
  | cons a rest ih =>
    intro lid e n he hn
    rcases List.mem_cons.mp he with rfl | he'
    · unfold bootMaxId
      simp only [List.foldl_cons, hn]
      exact le_trans (le_max_right lid n) (bootMaxId_ge rest (max lid n))
    · unfold bootMaxId
      simp only [List.foldl_cons]
      cases h : recIdVal a with
      | some m => exact ih (max lid m) e n he' hn
      | none => exact ih lid e n he' hn

theorem applySaves_mem (sk : Nat → Bool) :
    ∀ (ws : List StateDict) (i : Nat) (d : Disk),
      applySaves sk i d ws = d ∨ ∃ w ∈ ws, applySaves sk i d ws = .valid w := by
  intro ws
  induction ws with
  | nil => intro i d; exact Or.inl rfl
  | cons w rest ih =>
    intro i d
    simp only [applySaves]
    rcases ih (i + 1) (save_state (sk i) d w) with h | ⟨w', hw', h⟩
    · rw [h]
      unfold save_state
      by_cases hs : sk i
      · exact Or.inr ⟨w, List.mem_cons_self _ _, by simp [hs]⟩
      · simp [hs]
    · exact Or.inr ⟨w', List.mem_cons_of_mem _ hw', h⟩

theorem applySaves_true :
    ∀ (ws : List StateDict) (i : Nat) (d : Disk),
      applySaves (fun _ => true) i d ws = match ws.getLast? with
        | some w => .valid w
        | none => d := by
  intro ws
  induction ws with
  | nil => intro i d; rfl
  | cons w rest ih =>
    intro i d
    simp only [applySaves, save_state]
    rw [if_pos (by trivial)]
    rw [ih (i + 1) (Disk.valid w)]
    cases h : rest.getLast? with
    | some w' =>
      cases rest with
      | nil => simp at h
      | cons a as => simp_all [List.getLast?_cons_cons]
    | none =>
      cases rest with
      | nil => simp
      | cons a as => simp_all [List.getLast?_cons_cons]

theorem chain'_le_head : ∀ {l : List Int} {a : Int},
    List.Chain' (· ≤ ·) (a :: l) → ∀ x ∈ l, a ≤ x := by
  intro l
  induction l with
  | nil => intro a _ x hx; exact absurd hx (by simp)
  | cons b t ih =>
    intro a h x hx
    rcases List.chain'_cons.mp h with ⟨hab, ht⟩
    rcases List.mem_cons.mp hx with rfl | hxt
    · exact hab
    · exact le_trans hab (ih ht x hxt)

theorem run_once_writes_chain {ph : Bool} {off : Int} {pubOk : Nat → Bool}
    {st : StateDict} {logs : List Rec} {r : RunResult}
    (h : run_once ph off pubOk st logs = .ok r) :
    List.Chain' (· ≤ ·) (lastIdVal st :: r.writes.map lastIdVal) := by
  simp only [run_once] at h
  split at h
  · rcases Except.ok.inj h with rfl
    simp
  · split at h
    · exact absurd h (by simp)
    · rename_i new_logs hsel
      split at h
      · rcases Except.ok.inj h with rfl
        simp
      · rename_i hne
        split at h
        · rcases Except.ok.inj h with rfl
          simp only [List.map_cons, List.map_nil]
          refine List.chain'_cons.mpr ⟨?_, by simp⟩
          exact bootMaxId_ge _ _
        · rcases Except.ok.inj h with rfl
          have hpw : new_logs.Pairwise (fun a b => sort_key off a ≤ sort_key off b) :=
            (sortLogs_pairwise off logs).sublist (selectNew_sublist hsel) |>.imp id
          have hge : ∀ e ∈ new_logs, ∀ n : Int, recIdVal e = some n →
              lastIdVal st ≤ n := by
            intro e he n hn
            have hmem := (selectNew_mem_iff hsel e).mp he
            have h2 := is_new_of_recIdVal (st.last_id.getD 0) st.last_ts hn
            rw [hmem.2] at h2
            have hgt : n > st.last_id.getD 0 :=
              of_decide_eq_true (Except.ok.inj h2).symm
            exact le_of_lt hgt
          exact publishLoop_chain off pubOk new_logs st 0 hpw hge

theorem passDisk_lastId_mono (ph : Bool) (off : Int) (pk sk : Nat → Bool)
    (d : Disk) (logs : List Rec) :
    lastIdOf d ≤ lastIdOf (passDisk ph off pk sk d logs) := by
  unfold passDisk runPass
  cases h : run_once ph off pk (load_state d) logs with
  | error err => exact le_refl _
  | ok r =>
    simp only
    rcases applySaves_mem sk r.writes 0 d with ha | ⟨w, hw, ha⟩
    · rw [ha]
    · rw [ha]
      have hchain := run_once_writes_chain h
      have hle : lastIdVal (load_state d) ≤ lastIdVal w :=
        chain'_le_head hchain (lastIdVal w) (List.mem_map_of_mem lastIdVal hw)
      exact hle

theorem run_once_dominates {ph : Bool} {off : Int} {pubOk : Nat → Bool}
    {st : StateDict} {logs : List Rec} {r : RunResult}
    (h : run_once ph off pubOk st logs = .ok r) :
    ∀ e ∈ logs, ∀ n : Int, recIdVal e = some n →
      n ≤ lastIdVal (r.writes.getLast?.getD st) := by
  intro e he n hn
  have hesort : e ∈ sortLogs off logs := (sortLogs_perm off logs).mem_iff.mpr he
  simp only [run_once] at h
  split at h
  · rename_i hempty
    rw [List.isEmpty_iff] at hempty
    subst hempty
    exact absurd he (by simp)
  · split at h
    · exact absurd h (by simp)
    · rename_i new_logs hsel
      have hisnew := is_new_of_recIdVal (st.last_id.getD 0) st.last_ts hn
      split at h
      · rename_i hnew
        rw [List.isEmpty_iff] at hnew
        subst hnew
        rcases Except.ok.inj h with rfl
        have hni := (selectNew_mem_iff hsel e).2
        simp only [List.not_mem_nil] at hni
        by_contra hlt
        push_neg at hlt
        have hgt : st.last_id.getD 0 < n := by
          simpa [lastIdVal] using hlt
        exact (hni ⟨hesort, by rw [hisnew]; simp [decide_eq_true_eq, hgt]⟩).elim
      · rename_i hnew
        split at h
        · rcases Except.ok.inj h with rfl
          simp only [List.getLast?_singleton, Option.getD_some]
          exact bootMaxId_ge_mem _ _ e n hesort hn
        · rcases Except.ok.inj h with rfl
          simp only
          rw [← publishLoop_final_getLast]
          have hpw : new_logs.Pairwise (fun a b => sort_key off a ≤ sort_key off b) :=
            (sortLogs_pairwise off logs).sublist (selectNew_sublist hsel) |>.imp id
          have hge : ∀ e' ∈ new_logs, ∀ m : Int, recIdVal e' = some m →
              lastIdVal st ≤ m := by
            intro e' he' m hm
            have hmem := (selectNew_mem_iff hsel e').mp he'
            have h2 := is_new_of_recIdVal (st.last_id.getD 0) st.last_ts hm
            rw [hmem.2] at h2
            exact le_of_lt (of_decide_eq_true (Except.ok.inj h2).symm)
          by_cases hgt : n > st.last_id.getD 0
          · have hein : e ∈ new_logs := (selectNew_mem_iff hsel e).mpr
              ⟨hesort, by rw [hisnew]; simp [decide_eq_true_eq, hgt]⟩
            exact publishLoop_final_ge_mem off pubOk new_logs st 0 e n hpw hein hn hge
          · push_neg at hgt
            calc n ≤ st.last_id.getD 0 := hgt
              _ = lastIdVal st := rfl
              _ ≤ _ := publishLoop_final_ge off pubOk new_logs st 0 hpw hge

theorem run_once_writes_nil {ph : Bool} {off : Int} {pubOk : Nat → Bool}
    {st : StateDict} {logs : List Rec} {r : RunResult}
    (h : run_once ph off pubOk st logs = .ok r) (hw : r.writes = [])
    (pubOk' : Nat → Bool) :
    run_once ph off pubOk' st logs = .ok ⟨[], [], [], st⟩ := by
  simp only [run_once] at h ⊢
  split at h
  · rename_i hempty
    rw [if_pos hempty]
  · rename_i hempty
    rw [if_neg hempty]
    split at h
    · exact absurd h (by simp)
    · rename_i new_logs hsel
      split at h
      · rename_i hnew
        rw [if_pos hnew]
      · rename_i hnew
        split at h
        · rcases Except.ok.inj h with rfl
          exact absurd hw (by simp)
        · rcases Except.ok.inj h with rfl
          have hlen := publishLoop_writes_len pubOk new_logs st 0
          have hw2 : (publishLoop pubOk 0 st new_logs).2.1 = [] := hw
          rw [hw2] at hlen
          rw [List.isEmpty_iff] at hnew
          exact absurd (List.length_eq_zero.mp hlen.symm) hnew

theorem diskTrace_head (ph : Bool) (off : Int) (d : Disk)
    (ps : List (List Rec × (Nat → Bool) × (Nat → Bool))) :
    (diskTrace ph off d ps).head? = some d := by
  cases ps with
  | nil => rfl
  | cons p rest =>
    rcases p with ⟨logs, pk, sk⟩
    rfl

/-! ### Claim C1 -/

/-- Claim C1 (amended): for every fetched record and stored cursor, the
filtering loop selects exactly the records whose `is_new` test passes,
and the test is: a record with a truthy id chain is new iff the id
converts to an integer greater than `cursor.lastId` (a truthy id that
`int(...)` rejects is never selected — no timestamp fallback); a record
without a truthy id is new iff its `createdAt` parses and the stored
`last_ts` is unset, empty, or unparseable, or the parsed timestamp is
strictly greater (comparing a naive with an aware timestamp aborts the
pass instead); records with neither identifying field are never
selected. -/
theorem c1_novelty_rule_amended (lid : Int) (lts : Option String) (l nl : List Rec)
    (hsel : selectNew lid lts l = .ok nl) (e : Rec) (b : Bool)
    (hb : is_new lid lts e = .ok b) :
    (e ∈ nl ↔ e ∈ l ∧ is_new lid lts e = .ok true) ∧
    (b = true ↔ amendedC1Rule lid lts e) := by
  refine ⟨selectNew_mem_iff hsel e, ?_⟩
  unfold is_new at hb
  unfold amendedC1Rule
  by_cases ht : truthyOpt (pyOr e.id e.Id)
  · rw [if_pos ht] at hb
    rw [if_pos ht]
    cases hr : recIdVal e with
    | some n =>
      rw [hr] at hb
      rcases Except.ok.inj hb with rfl
      simp [decide_eq_true_eq]
    | none =>
      rw [hr] at hb
      rcases Except.ok.inj hb with rfl
      simp
  · rw [if_neg ht] at hb
    rw [if_neg ht]
    cases hp : parse_iso_datetime (createdChain e) with
    | none =>
      rw [hp] at hb
      rcases Except.ok.inj hb with rfl
      simp
    | some c =>
      rw [hp] at hb
      cases lts with
      | none =>
        rcases Except.ok.inj hb with rfl
        simp
      | some t =>
        have hb' : (if t = "" then Except.ok true
            else match parse_iso_datetime t with
              | none => Except.ok true
              | some lastDt => pyGtDT c lastDt) = Except.ok (ε := PyErr) b := hb
        by_cases hts : t = ""
        · rw [if_pos hts] at hb'
          rcases Except.ok.inj hb' with rfl
          simp [hts]
        · rw [if_neg hts] at hb'
          cases hq : parse_iso_datetime t with
          | none =>
            rw [hq] at hb'
            rcases Except.ok.inj hb' with rfl
            simp [hq]
          | some lastDt =>
            rw [hq] at hb'
            have hb2 : pyGtDT c lastDt = Except.ok (ε := PyErr) b := hb'
            constructor
            · intro hbt
              subst hbt
              exact ⟨c, rfl, Or.inr (Or.inr (Or.inr ⟨t, lastDt, rfl, hq, hb2⟩))⟩
            · rintro ⟨c', hc', hor⟩
              rcases Option.some.inj hc' with rfl
              rcases hor with h1 | h1 | ⟨t', ht', hp'⟩ | ⟨t', lastDt', ht', hq', hgt⟩
              · exact absurd h1 (by simp)
              · exact absurd (Option.some.inj h1) hts
              · rcases Option.some.inj ht' with rfl
                rw [hq] at hp'
                exact absurd hp' (by simp)
              · rcases Option.some.inj ht' with rfl
                rw [hq] at hq'
                rcases Option.some.inj hq' with rfl
                rw [hb2] at hgt
                exact Except.ok.inj hgt

/-- Claim C1 counterexample: the record `{id: "x", createdAt:
"2024-01-02T03:04:05+00:00"}` against the empty cursor.  Its id is
truthy but not numeric (`int("x")` fails), the claim therefore
classifies it by its parseable timestamp against the unset
`lastTimestamp` — new; but the filtering loop never selects it. -/
theorem c1_novelty_rule_counterexample :
    claimC1Rule 0 none ⟨some (.vStr "x"), none, some "2024-01-02T03:04:05+00:00", none⟩ = true ∧
    toInt (Val.vStr "x") = none ∧
    is_new 0 none ⟨some (.vStr "x"), none, some "2024-01-02T03:04:05+00:00", none⟩ = .ok false ∧
    selectNew 0 none [⟨some (.vStr "x"), none, some "2024-01-02T03:04:05+00:00", none⟩] =
      .ok [] := by decide

/-- Claim C1 witness: the amended rule evaluated on the concrete record
`{id: 7}` against cursor `lastId = 3`. -/
theorem c1_novelty_rule_witness :
    ((⟨some (.vInt 7), none, none, none⟩ : Rec) ∈
        ([⟨some (.vInt 7), none, none, none⟩] : List Rec) ↔
      (⟨some (.vInt 7), none, none, none⟩ : Rec) ∈
        ([⟨some (.vInt 7), none, none, none⟩] : List Rec) ∧
      is_new 3 none ⟨some (.vInt 7), none, none, none⟩ = .ok true) ∧
    (true = true ↔ amendedC1Rule 3 none ⟨some (.vInt 7), none, none, none⟩) :=
  c1_novelty_rule_amended 3 none [⟨some (.vInt 7), none, none, none⟩]
    [⟨some (.vInt 7), none, none, none⟩] (by decide)
    ⟨some (.vInt 7), none, none, none⟩ true (by decide)

/-! ### Claim C2 -/

unseal List.merge List.mergeSort in
/-- Claim C2 (code bug): batch of three new records with ids 1, 2, 3
against cursor `last_id = 0`, where the second publish fails.  The
failure is caught (record 3 is still attempted, the final cursor
reflects record 3), but the state update runs for every iteration
regardless of the publish outcome, so the failed record 2 is
nonetheless persisted as `last_id = 2` — the cursor is advanced past a
record that was never delivered, which the specification forbids.
(In the source as written, the body of this loop is not even indented
under its `for` statement — an `IndentationError` at line 283; the
embedding follows the only indentation repair consistent with the
surrounding lines.) -/
theorem c2_failed_publish_trace :
    runPass false 0 (fun i => decide (i ≠ 1)) (fun _ => true) (.valid ⟨some 0, none⟩)
        [⟨some (.vInt 1), none, none, none⟩, ⟨some (.vInt 2), none, none, none⟩,
         ⟨some (.vInt 3), none, none, none⟩] =
      .ok (⟨[⟨some (.vInt 1), none, none, none⟩, ⟨some (.vInt 2), none, none, none⟩,
             ⟨some (.vInt 3), none, none, none⟩],
            [⟨some (.vInt 1), none, none, none⟩, ⟨some (.vInt 3), none, none, none⟩],
            [⟨some 1, none⟩, ⟨some 2, none⟩, ⟨some 3, none⟩], ⟨some 3, none⟩⟩,
        .valid ⟨some 3, none⟩) := by decide

/-! ### Claim C3 -/

/-- Claim C3 (amended): on a true first run (empty cursor store) with
bootstrap posting disabled, provided at least one record passes the
novelty filter, the pass publishes nothing and persists exactly one
cursor: `last_id` is the maximum parseable id observed (floored at 0)
and `last_ts` is the `createdAt` of the *last record in sort order*
when truthy — not necessarily the latest timestamp observed. -/
theorem c3_bootstrap_amended (off : Int) (pubOk sk : Nat → Bool) (logs nl : List Rec)
    (hsel : selectNew 0 none (sortLogs off logs) = .ok nl) (hne : nl ≠ []) :
    runPass false off pubOk sk .missing logs =
      .ok (⟨[], [],
            [⟨some (bootMaxId 0 (sortLogs off logs)), lastTsCandidate (sortLogs off logs)⟩],
            ⟨some (bootMaxId 0 (sortLogs off logs)), lastTsCandidate (sortLogs off logs)⟩⟩,
        save_state (sk 0) .missing
          ⟨some (bootMaxId 0 (sortLogs off logs)), lastTsCandidate (sortLogs off logs)⟩) := by
  have hlne : logs ≠ [] := by
    intro hl
    subst hl
    rw [show sortLogs off [] = [] from List.mergeSort_nil] at hsel
    simp only [selectNew, Except.ok.injEq] at hsel
    exact hne hsel.symm
  have hni : nl.isEmpty = false := by
    cases nl with
    | nil => exact absurd rfl hne
    | cons a t => rfl
  have hli : logs.isEmpty = false := by
    cases logs with
    | nil => exact absurd rfl hlne
    | cons a t => rfl
  have hmatch : (match lastTsCandidate (sortLogs off logs) with
      | some t => some t
      | none => (none : Option String)) = lastTsCandidate (sortLogs off logs) := by
    cases lastTsCandidate (sortLogs off logs) <;> rfl
  have hro : run_once false off pubOk (load_state .missing) logs =
      .ok ⟨[], [],
        [⟨some (bootMaxId 0 (sortLogs off logs)), lastTsCandidate (sortLogs off logs)⟩],
        ⟨some (bootMaxId 0 (sortLogs off logs)), lastTsCandidate (sortLogs off logs)⟩⟩ := by
    simp [run_once, load_state, emptyState, stateEmpty, hli, hni, hsel, hmatch]
  unfold runPass
  rw [hro]
  rfl

unseal List.merge List.mergeSort in
/-- Claim C3 counterexample: empty cursor store, bootstrap posting
disabled, batch of two records `{id: 2, createdAt: 2025-01-01}` and
`{id: 3, createdAt: 2024-01-01}`.  The pass publishes nothing and
persists `last_id = 3` as claimed, but the persisted `last_ts` is
`2024-01-01` — the `createdAt` of the last record in id order — while
the latest timestamp observed in the batch is the strictly greater
`2025-01-01`, so the cursor is not initialised to the latest observed
timestamp. -/
theorem c3_bootstrap_counterexample :
    runPass false 0 (fun _ => true) (fun _ => true) .missing
        [⟨some (.vInt 2), none, some "2025-01-01T00:00:00+00:00", none⟩,
         ⟨some (.vInt 3), none, some "2024-01-01T00:00:00+00:00", none⟩] =
      .ok (⟨[], [], [⟨some 3, some "2024-01-01T00:00:00+00:00"⟩],
            ⟨some 3, some "2024-01-01T00:00:00+00:00"⟩⟩,
        .valid ⟨some 3, some "2024-01-01T00:00:00+00:00"⟩) ∧
    parse_iso_datetime "2025-01-01T00:00:00+00:00" = some ⟨2025, 1, 1, 0, 0, 0, 0, some 0⟩ ∧
    parse_iso_datetime "2024-01-01T00:00:00+00:00" = some ⟨2024, 1, 1, 0, 0, 0, 0, some 0⟩ ∧
    pyGtDT ⟨2025, 1, 1, 0, 0, 0, 0, some 0⟩ ⟨2024, 1, 1, 0, 0, 0, 0, some 0⟩ = .ok true := by
  decide

unseal List.merge List.mergeSort in
/-- Claim C3 witness: empty store, bootstrap disabled, ids [1, 2, 3]:
zero records published and the persisted cursor is `last_id = 3`. -/
theorem c3_bootstrap_witness :
    runPass false 0 (fun _ => true) (fun _ => true) .missing
        [⟨some (.vInt 1), none, none, none⟩, ⟨some (.vInt 2), none, none, none⟩,
         ⟨some (.vInt 3), none, none, none⟩] =
      .ok (⟨[], [], [⟨some 3, none⟩], ⟨some 3, none⟩⟩, .valid ⟨some 3, none⟩) :=
  (c3_bootstrap_amended 0 (fun _ => true) (fun _ => true)
    [⟨some (.vInt 1), none, none, none⟩, ⟨some (.vInt 2), none, none, none⟩,
     ⟨some (.vInt 3), none, none, none⟩]
    [⟨some (.vInt 1), none, none, none⟩, ⟨some (.vInt 2), none, none, none⟩,
     ⟨some (.vInt 3), none, none, none⟩] (by decide) (by decide)).trans (by decide)

/-! ### Claim C4 -/

/-- Claim C4 (amended): over every sequence of passes with arbitrary
batches and publish/save outcomes, the `last_id` component of the
persisted cursor never decreases.  (The `last_ts` component can
decrease, see the counterexample.) -/
theorem c4_last_id_monotone (ph : Bool) (off : Int) (d0 : Disk)
    (passes : List (List Rec × (Nat → Bool) × (Nat → Bool))) :
    List.Chain' (fun a b => lastIdOf a ≤ lastIdOf b) (diskTrace ph off d0 passes) := by
  induction passes generalizing d0 with
  | nil => simp [diskTrace]
  | cons p rest ih =>
    rcases p with ⟨logs, pk, sk⟩
    show List.Chain' _ (d0 :: diskTrace ph off (passDisk ph off pk sk d0 logs) rest)
    rw [List.chain'_cons']
    refine ⟨?_, ih _⟩
    intro x hx
    rw [diskTrace_head] at hx
    rcases Option.mem_some_iff.mp hx with rfl
    exact passDisk_lastId_mono ph off pk sk d0 logs

unseal List.merge List.mergeSort in
/-- Claim C4 counterexample: a pass over the cursor
`{last_id: 5, last_ts: "2025-01-01…"}` and one record
`{id: 6, createdAt: "2020-01-01…"}`.  The record is selected by its id,
and the unconditional `last_ts` update copies its stale `createdAt`
into the cursor: the persisted `last_ts` moves strictly backwards. -/
theorem c4_monotonicity_counterexample :
    passDisk false 0 (fun _ => true) (fun _ => true)
        (.valid ⟨some 5, some "2025-01-01T00:00:00+00:00"⟩)
        [⟨some (.vInt 6), none, some "2020-01-01T00:00:00+00:00", none⟩] =
      .valid ⟨some 6, some "2020-01-01T00:00:00+00:00"⟩ ∧
    parse_iso_datetime "2025-01-01T00:00:00+00:00" = some ⟨2025, 1, 1, 0, 0, 0, 0, some 0⟩ ∧
    parse_iso_datetime "2020-01-01T00:00:00+00:00" = some ⟨2020, 1, 1, 0, 0, 0, 0, some 0⟩ ∧
    pyGtDT ⟨2025, 1, 1, 0, 0, 0, 0, some 0⟩ ⟨2020, 1, 1, 0, 0, 0, 0, some 0⟩ = .ok true := by
  decide

/-! ### Claim C5 -/

/-- Claim C5 (amended): running a pass twice against the same batch
publishes nothing on the second pass, provided every record of the
batch carries a truthy, integer-parseable id (all publishes of the
first pass succeeding, saves succeeding).  The second pass attempts no
record and leaves the disk untouched.  Without the all-ids proviso the
claim fails, see the counterexample. -/
theorem c5_idempotent_for_id_batches (ph : Bool) (off : Int) (pubOk1 pubOk2 : Nat → Bool)
    (d0 : Disk) (logs : List Rec) (r1 : RunResult) (d1 : Disk)
    (hids : ∀ e ∈ logs, (recIdVal e).isSome = true)
    (_hpub : ∀ i, pubOk1 i = true)
    (h1 : runPass ph off pubOk1 (fun _ => true) d0 logs = .ok (r1, d1)) :
    runPass ph off pubOk2 (fun _ => true) d1 logs =
      .ok (⟨[], [], [], load_state d1⟩, d1) := by
  unfold runPass at h1
  cases hro : run_once ph off pubOk1 (load_state d0) logs with
  | error err =>
    rw [hro] at h1
    exact absurd h1 (by simp)
  | ok r =>
    rw [hro] at h1
    simp only [Except.ok.injEq, Prod.mk.injEq] at h1
    rcases h1 with ⟨hr1, hd1⟩
    cases hw : r.writes.getLast? with
    | none =>
      rw [List.getLast?_eq_none_iff] at hw
      have hd : d1 = d0 := by
        rw [← hd1, applySaves_true, hw]
        rfl
      have h2 := run_once_writes_nil hro hw pubOk2
      subst hd
      unfold runPass
      rw [h2]
      rfl
    | some w =>
      have hd : d1 = .valid w := by
        rw [← hd1, applySaves_true, hw]
      have hdom := run_once_dominates hro
      rw [hw] at hdom
      simp only [Option.getD_some] at hdom
      have hlne : logs ≠ [] := by
        intro hl
        subst hl
        have hnil : run_once ph off pubOk1 (load_state d0) [] =
            .ok ⟨[], [], [], load_state d0⟩ := rfl
        rw [hnil] at hro
        rcases Except.ok.inj hro with rfl
        simp at hw
      have hsel2 : selectNew (lastIdVal w) w.last_ts (sortLogs off logs) = .ok [] := by
        apply selectNew_eq_nil
        intro e he
        have hel : e ∈ logs := (sortLogs_perm off logs).mem_iff.mp he
        rcases Option.isSome_iff_exists.mp (hids e hel) with ⟨n, hn⟩
        have hle := hdom e hel n hn
        rw [is_new_of_recIdVal (lastIdVal w) w.last_ts hn]
        have hdec : decide (n > lastIdVal w) = false := decide_eq_false (not_lt.mpr hle)
        rw [hdec]
      subst hd
      unfold runPass
      have hro2 : run_once ph off pubOk2 (load_state (.valid w)) logs =
          .ok ⟨[], [], [], w⟩ := by
        simp only [load_state, run_once]
        rw [if_neg (by simpa [List.isEmpty_iff] using hlne)]
        rw [show selectNew (w.last_id.getD 0) w.last_ts (sortLogs off logs) =
          Except.ok ([] : List Rec) from hsel2]
        rfl
      rw [hro2]
      rfl

unseal List.merge List.mergeSort in
/-- Claim C5 counterexample: cursor `{last_id: 0}`, batch of two
records, A = `{id: 2000000000, createdAt: "2020-01-01…"}` and
B = `{createdAt: "2024-01-01…"}` with no id.  Sort order is [B, A]
(epoch of 2024 < 2000000000), so the first pass publishes B then A and
— updating `last_ts` from the id-selected A — leaves the cursor's
`last_ts` at A's stale `createdAt` "2020-01-01…".  The second pass over
the same batch, all first-pass publishes having succeeded, selects and
publishes B again: the pass is not idempotent. -/
theorem c5_idempotence_counterexample :
    runPass false 0 (fun _ => true) (fun _ => true) (.valid ⟨some 0, none⟩)
        [⟨some (.vInt 2000000000), none, some "2020-01-01T00:00:00+00:00", none⟩,
         ⟨none, none, some "2024-01-01T00:00:00+00:00", none⟩] =
      .ok (⟨[⟨none, none, some "2024-01-01T00:00:00+00:00", none⟩,
             ⟨some (.vInt 2000000000), none, some "2020-01-01T00:00:00+00:00", none⟩],
            [⟨none, none, some "2024-01-01T00:00:00+00:00", none⟩,
             ⟨some (.vInt 2000000000), none, some "2020-01-01T00:00:00+00:00", none⟩],
            [⟨some 0, some "2024-01-01T00:00:00+00:00"⟩,
             ⟨some 2000000000, some "2020-01-01T00:00:00+00:00"⟩],
            ⟨some 2000000000, some "2020-01-01T00:00:00+00:00"⟩⟩,
        .valid ⟨some 2000000000, some "2020-01-01T00:00:00+00:00"⟩) ∧
    runPass false 0 (fun _ => true) (fun _ => true)
        (.valid ⟨some 2000000000, some "2020-01-01T00:00:00+00:00"⟩)
        [⟨some (.vInt 2000000000), none, some "2020-01-01T00:00:00+00:00", none⟩,
         ⟨none, none, some "2024-01-01T00:00:00+00:00", none⟩] =
      .ok (⟨[⟨none, none, some "2024-01-01T00:00:00+00:00", none⟩],
            [⟨none, none, some "2024-01-01T00:00:00+00:00", none⟩],
            [⟨some 2000000000, some "2024-01-01T00:00:00+00:00"⟩],
            ⟨some 2000000000, some "2024-01-01T00:00:00+00:00"⟩⟩,
        .valid ⟨some 2000000000, some "2024-01-01T00:00:00+00:00"⟩) := by
  constructor
  · decide
  · decide

unseal List.merge List.mergeSort in
/-- Claim C5 witness: the amended idempotence applied to the one-record
batch `[{id: 1}]` over cursor `{last_id: 0}`: the second pass attempts
nothing and leaves the cursor at `{last_id: 1}`. -/
theorem c5_idempotence_witness :
    runPass false 0 (fun _ => true) (fun _ => true) (.valid ⟨some 1, none⟩)
        [⟨some (.vInt 1), none, none, none⟩] =
      .ok (⟨[], [], [], ⟨some 1, none⟩⟩, .valid ⟨some 1, none⟩) :=
  c5_idempotent_for_id_batches false 0 (fun _ => true) (fun _ => true)
    (.valid ⟨some 0, none⟩) [⟨some (.vInt 1), none, none, none⟩]
    ⟨[⟨some (.vInt 1), none, none, none⟩], [⟨some (.vInt 1), none, none, none⟩],
     [⟨some 1, none⟩], ⟨some 1, none⟩⟩
    (.valid ⟨some 1, none⟩)
    (by decide) (fun _ => rfl) (by decide)

/-! ### Claim C6 -/

unseal List.merge List.mergeSort in
/-- Claim C6: the new-records output is sorted ascending by the
synthetic sort key (numeric id when present, else parsed `createdAt`
epoch, else 0); in particular, for records with ids [5, 3, 9], no prior
cursor, and bootstrap posting enabled, the publish order is [3, 5, 9]. -/
theorem c6_output_sorted :
    (∀ (off lid : Int) (lts : Option String) (logs nl : List Rec),
      selectNew lid lts (sortLogs off logs) = .ok nl →
      nl.Pairwise (fun a b => sort_key off a ≤ sort_key off b)) ∧
    (run_once true 0 (fun _ => true) emptyState
        [⟨some (.vInt 5), none, none, none⟩, ⟨some (.vInt 3), none, none, none⟩,
         ⟨some (.vInt 9), none, none, none⟩]).map RunResult.attempts =
      .ok [⟨some (.vInt 3), none, none, none⟩, ⟨some (.vInt 5), none, none, none⟩,
           ⟨some (.vInt 9), none, none, none⟩] := by
  constructor
  · intro off lid lts logs nl hsel
    exact (sortLogs_pairwise off logs).sublist (selectNew_sublist hsel) |>.imp id
  · decide

unseal List.merge List.mergeSort in
/-- Claim C6 witness: the sortedness statement applied to the concrete
batch with ids [5, 3, 9] against the empty cursor. -/
theorem c6_sorted_witness :
    ([⟨some (.vInt 3), none, none, none⟩, ⟨some (.vInt 5), none, none, none⟩,
      ⟨some (.vInt 9), none, none, none⟩] : List Rec).Pairwise
      (fun a b => sort_key 0 a ≤ sort_key 0 b) :=
  c6_output_sorted.1 0 0 none
    [⟨some (.vInt 5), none, none, none⟩, ⟨some (.vInt 3), none, none, none⟩,
     ⟨some (.vInt 9), none, none, none⟩]
    [⟨some (.vInt 3), none, none, none⟩, ⟨some (.vInt 5), none, none, none⟩,
     ⟨some (.vInt 9), none, none, none⟩] (by decide)

/-! ### Claim C7 -/

/-- Claim C7: `parse_iso_datetime` accepts a `Z`-suffixed UTC
designator (normalised to `+00:00`); it accepts via its `strptime`
fallback at least one format `fromisoformat` rejects (`+0000`,
offset without a colon); an unparseable string yields `None`; and every
input yields either a datetime or `None` — the function never raises. -/
theorem c7_parse_total_and_formats :
    parse_iso_datetime "2024-01-02T03:04:05Z" = some ⟨2024, 1, 2, 3, 4, 5, 0, some 0⟩ ∧
    parse_iso_datetime "2024-01-02T03:04:05+0000" = some ⟨2024, 1, 2, 3, 4, 5, 0, some 0⟩ ∧
    fromisoformat "2024-01-02T03:04:05+0000".data = none ∧
    parse_iso_datetime "not-a-date" = none ∧
    ∀ s : String, parse_iso_datetime s = none ∨ ∃ t, parse_iso_datetime s = some t := by
  refine ⟨by decide, by decide, by decide, by decide, ?_⟩
  intro s
  cases h : parse_iso_datetime s with
  | none => exact Or.inl rfl
  | some t => exact Or.inr ⟨t, rfl⟩

/-! ### Claim C8 -/

/-- Claim C8: cursor persistence failures never crash a pass.
`load_state` yields the empty cursor on a missing file and on a
corrupt/unreadable one; a failed `save_state` leaves the disk as it
was; and a pass computes the same outcome (fetch, filter, publish
attempts, requested writes) whatever the save outcomes are — a write
failure never raises out of the pass. -/
theorem c8_persistence_resilient :
    load_state .missing = emptyState ∧
    load_state .corrupt = emptyState ∧
    (∀ (d : Disk) (st : StateDict), save_state false d st = d) ∧
    (∀ (ph : Bool) (off : Int) (pubOk sk sk' : Nat → Bool) (d : Disk) (logs : List Rec),
      (runPass ph off pubOk sk d logs).map Prod.fst =
        (runPass ph off pubOk sk' d logs).map Prod.fst) := by
  refine ⟨rfl, rfl, fun d st => rfl, ?_⟩
  intro ph off pubOk sk sk' d logs
  unfold runPass
  cases run_once ph off pubOk (load_state d) logs <;> rfl

/-! ### Claim C9 -/

/-- Claim C9: a record whose `id` is present but falsy (`0` or `""`,
with no alternate-spelling `Id`) is treated by the novelty test exactly
as a record with no id at all — classified solely by its `createdAt`;
concretely, `{id: 0, createdAt: "2024-01-02T03:04:05Z"}` is selected as
new against cursor `last_id = 5` although `0 > 5` is false. -/
theorem c9_falsy_id_timestamp_fallback :
    (∀ (lid : Int) (lts : Option String) (e : Rec),
      (e.id = some (.vInt 0) ∨ e.id = some (.vStr "")) → e.Id = none →
      is_new lid lts e = is_new lid lts { e with id := none }) ∧
    is_new 5 none ⟨some (.vInt 0), none, some "2024-01-02T03:04:05Z", none⟩ = .ok true ∧
    ¬ ((0 : Int) > 5) := by
  refine ⟨?_, by decide, by decide⟩
  intro lid lts e hid hId
  have h1 : pyOr e.id e.Id = none := by
    rcases hid with h | h <;> simp [pyOr, truthyOpt, truthy, h, hId]
  have h2 : pyOr (none : Option Val) e.Id = none := by
    simp [pyOr, truthyOpt, hId]
  unfold is_new recIdVal createdChain
  rw [h1, h2]

/-- Claim C9 witness: the frame statement applied to the record
`{id: 0, createdAt: "2030-01-01T00:00:00Z"}` against `last_id = 7`. -/
theorem c9_falsy_id_witness :
    is_new 7 none ⟨some (.vInt 0), none, some "2030-01-01T00:00:00Z", none⟩ =
      is_new 7 none ⟨none, none, some "2030-01-01T00:00:00Z", none⟩ :=
  c9_falsy_id_timestamp_fallback.1 7 none
    ⟨some (.vInt 0), none, some "2030-01-01T00:00:00Z", none⟩ (Or.inl rfl) rfl

/-! ### Claim C10 -/

/-- Claim C10: on a true first run (empty cursor store, bootstrap
posting disabled), a non-empty fetched batch in which no record passes
the novelty filter makes the pass return with no cursor write at all:
bootstrap initialisation only runs when at least one record was
classified as new. -/
theorem c10_no_cursor_when_no_new (off : Int) (pubOk sk : Nat → Bool) (logs : List Rec)
    (hne : logs ≠ []) (hsel : selectNew 0 none (sortLogs off logs) = .ok []) :
    runPass false off pubOk sk .missing logs = .ok (⟨[], [], [], emptyState⟩, .missing) := by
  unfold runPass
  have hro : run_once false off pubOk (load_state .missing) logs =
      .ok ⟨[], [], [], emptyState⟩ := by
    simp only [load_state, run_once]
    rw [if_neg (by simpa [List.isEmpty_iff] using hne)]
    rw [show selectNew (emptyState.last_id.getD 0) emptyState.last_ts (sortLogs off logs) =
      Except.ok ([] : List Rec) from hsel]
    rfl
  rw [hro]
  rfl

unseal List.merge List.mergeSort in
/-- Claim C10 witness: empty store, bootstrap disabled, one-record
batch `[{id: 0}]` (falsy id, no timestamp — never selected): the pass
ends with no state file written. -/
theorem c10_no_cursor_witness :
    runPass false 0 (fun _ => true) (fun _ => true) .missing
        [⟨some (.vInt 0), none, none, none⟩] =
      .ok (⟨[], [], [], emptyState⟩, .missing) :=
  c10_no_cursor_when_no_new 0 (fun _ => true) (fun _ => true)
    [⟨some (.vInt 0), none, none, none⟩] (by decide) (by decide)

end Changelog
